import Mathlib

/-!
Shallow embedding of the evaluation core of the `bevy_lookup_curve` crate
(`src/lib.rs` and `src/knot_search.rs`).

Conventions of the embedding:
* `f32` values are modelled as `Rat`; the arithmetic used by the code
  (add, sub, mul, div, comparisons) is exact on the inputs studied here.
* Code that can panic (index out of bounds, `unwrap` of `None`, `usize`
  subtraction underflow with overflow checks on) is modelled with `Option`,
  `none` standing for a panic.
* `Vec<Knot>` and slices are modelled as `List Knot`; `&mut Option<usize>`
  cache arguments are modelled by explicit state passing (the function
  returns the new cache contents).
-/

/-- Two-dimensional vector (`bevy_math::Vec2`), components as `Rat`. -/
structure Vec2 where
  x : Rat
  y : Rat
deriving DecidableEq, Repr

/-- `Vec2` pointwise addition. -/
def Vec2.add (a b : Vec2) : Vec2 := ⟨a.x + b.x, a.y + b.y⟩

/-- `Vec2` scaling by a scalar on the right (`v * s`). -/
def Vec2.smul (v : Vec2) (s : Rat) : Vec2 := ⟨v.x * s, v.y * s⟩

/-- `Vec2::lerp`: `self + (rhs - self) * s`, componentwise. -/
def Vec2.lerp (a b : Vec2) (s : Rat) : Vec2 :=
  ⟨a.x + (b.x - a.x) * s, a.y + (b.y - a.y) * s⟩

/-- `TangentMode` from `src/lib.rs`. -/
inductive TangentMode where
  | Free : TangentMode
  | Aligned : TangentMode
deriving DecidableEq, Repr

/-- `Tangent` from `src/lib.rs`. -/
structure Tangent where
  slope : Rat
  mode : TangentMode
  weight : Option Rat
deriving DecidableEq, Repr

/-- `Tangent::default()`: slope 0, mode Aligned, no weight. -/
def Tangent.default : Tangent := ⟨0, TangentMode.Aligned, none⟩

/-- `KnotInterpolation` from `src/lib.rs`. -/
inductive KnotInterpolation where
  | Constant : KnotInterpolation
  | Linear : KnotInterpolation
  | Cubic : KnotInterpolation
deriving DecidableEq, Repr

/-- `Knot` from `src/lib.rs`. The `id` field is a plain `Nat` (the Rust
`usize` id assigned by `unique_knot_id`); no curve code ever inspects it
except through equality. -/
structure Knot where
  position : Vec2
  interpolation : KnotInterpolation
  left_tangent : Tangent
  right_tangent : Tangent
  id : Nat
deriving DecidableEq, Repr

/-- Checked `usize` subtraction: Rust panics on underflow (overflow checks
on), modelled as `none`. -/
def checked_sub (a b : Nat) : Option Nat :=
  if b ≤ a then some (a - b) else none

/-- `slice::partition_point` specialised to knot lists. On a slice that is
partitioned with respect to `p` (all claims below supply sortedness, which
makes the predicates used here partition the slice) Rust's binary search
returns the number of leading elements satisfying `p`, which is what this
structural definition computes. -/
def partition_point (p : Knot → Bool) : List Knot → Nat
  | [] => 0
  | k :: rest => if p k then partition_point p rest + 1 else 0

/-- `Iterator::position`: index of the first element satisfying `p`. -/
def position_of (p : Knot → Bool) : List Knot → Option Nat
  | [] => none
  | k :: rest => if p k then some 0 else (position_of p rest).map Nat.succ

/-- `search_knots_binary` from `src/knot_search.rs`:
`self.partition_point(|knot| knot.position.x < x) - 1`. -/
def search_knots_binary (l : List Knot) (x : Rat) : Option Nat :=
  checked_sub (partition_point (fun k => decide (k.position.x < x)) l) 1

/-- `search_knots_linear` from `src/knot_search.rs`:
`self.iter().position(|knot| knot.position.x >= x).unwrap() - 1`. -/
def search_knots_linear (l : List Knot) (x : Rat) : Option Nat :=
  match position_of (fun k => decide (x ≤ k.position.x)) l with
  | none => none
  | some i => checked_sub i 1

/-- `search_knots_linear_rev` from `src/knot_search.rs`:
`self.len() - self.iter().rev().position(|knot| knot.position.x < x).unwrap() - 1`. -/
def search_knots_linear_rev (l : List Knot) (x : Rat) : Option Nat :=
  match position_of (fun k => decide (k.position.x < x)) l.reverse with
  | none => none
  | some j => some (l.length - j - 1)

/-- `search_knots` from `src/knot_search.rs`: delegates to binary search. -/
def search_knots (l : List Knot) (x : Rat) : Option Nat :=
  search_knots_binary l x

/-- The computation of the local variable `i` inside `search_knots_with_cache`
(`src/knot_search.rs`): full search when the hint is `None` or stale, else a
bounded linear search around the hinted knot. The test
`cached_index.unwrap() > self.len() - 2` performs a `usize` subtraction that
panics when the slice has fewer than 2 knots. -/
def cache_found (l : List Knot) (x : Rat) (cached : Option Nat) : Option Nat :=
  match cached with
  | none => search_knots l x
  | some c =>
    match checked_sub l.length 2 with
    | none => none
    | some lim =>
      if lim < c then
        search_knots l x
      else
        match l[c]? with
        | none => none
        | some cached_knot =>
          if x ≤ cached_knot.position.x then
            search_knots_linear_rev (l.take c) x
          else
            (search_knots_linear (l.drop c) x).map (fun j => c + j)

/-- `search_knots_with_cache` from `src/knot_search.rs`. The `&mut
Option<usize>` hint is modelled by returning the pair (result, new hint):
`*cached_index = Some(i)` before returning `i`. -/
def search_knots_with_cache (l : List Knot) (x : Rat) (cached : Option Nat) :
    Option (Nat × Option Nat) :=
  match cache_found l x cached with
  | none => none
  | some i => some (i, some i)

/-- `LookupCurve` from `src/lib.rs` (`max_iters : u8` as `Nat`). -/
structure LookupCurve where
  knots : List Knot
  max_iters : Nat
  max_error : Rat
  name : Option String
deriving DecidableEq, Repr

/-- `LookupCurve::default()`: empty, `max_iters = 20`, `max_error = 1e-5`. -/
def LookupCurve.default : LookupCurve :=
  ⟨[], 20, 1 / 100000, none⟩

/-- `LookupCurve::new`: sorts the given knots ascending by `position.x`
(`Vec::sort_by` is a stable merge sort) and fills the rest from the default. -/
def LookupCurve.new (knots : List Knot) : LookupCurve :=
  { LookupCurve.default with
    knots := knots.mergeSort (fun a b => decide (a.position.x ≤ b.position.x)) }

/-- `Knot::compute_bezier_to` from `src/lib.rs`: the four Bezier control
points from knot `a` to knot `b`. -/
def Knot.compute_bezier_to (a b : Knot) : Vec2 × Vec2 × Vec2 × Vec2 :=
  let slope_a := a.right_tangent.slope
  let weight_a := a.right_tangent.weight.getD (1 / 3)
  let slope_b := b.left_tangent.slope
  let weight_b := b.left_tangent.weight.getD (1 / 3)
  let dx := b.position.x - a.position.x
  (a.position,
   ⟨a.position.x + weight_a * dx, a.position.y + weight_a * slope_a * dx⟩,
   ⟨b.position.x - weight_b * dx, b.position.y - weight_b * slope_b * dx⟩,
   b.position)

/-- `CubicSegment` from `src/lib.rs`: monomial coefficients of a cubic. -/
structure CubicSegment where
  coeff0 : Vec2
  coeff1 : Vec2
  coeff2 : Vec2
  coeff3 : Vec2
deriving DecidableEq, Repr

/-- One row of the characteristic-matrix product in
`CubicSegment::coefficients`: `p0*c.0 + p1*c.1 + p2*c.2 + p3*c.3`. -/
def rowCoeff (p0 p1 p2 p3 : Vec2) (c : Rat × Rat × Rat × Rat) : Vec2 :=
  (((p0.smul c.1).add (p1.smul c.2.1)).add (p2.smul c.2.2.1)).add (p3.smul c.2.2.2)

/-- `CubicSegment::coefficients`: characteristic matrix times point matrix,
each row scaled by `multiplier`. -/
def CubicSegment.coefficients (p0 p1 p2 p3 : Vec2) (multiplier : Rat)
    (c0 c1 c2 c3 : Rat × Rat × Rat × Rat) : CubicSegment :=
  ⟨(rowCoeff p0 p1 p2 p3 c0).smul multiplier,
   (rowCoeff p0 p1 p2 p3 c1).smul multiplier,
   (rowCoeff p0 p1 p2 p3 c2).smul multiplier,
   (rowCoeff p0 p1 p2 p3 c3).smul multiplier⟩

/-- `CubicSegment::from_bezier_points` with its fixed Bezier characteristic
matrix and multiplier 1. -/
def CubicSegment.from_bezier_points (p : Vec2 × Vec2 × Vec2 × Vec2) : CubicSegment :=
  CubicSegment.coefficients p.1 p.2.1 p.2.2.1 p.2.2.2 1
    (1, 0, 0, 0) (-3, 3, 0, 0) (3, -6, 3, 0) (-1, 3, -3, 1)

/-- `CubicSegment::position`: `a + b t + c t^2 + d t^3`, componentwise. -/
def CubicSegment.position (s : CubicSegment) (t : Rat) : Vec2 :=
  ⟨s.coeff0.x + s.coeff1.x * t + s.coeff2.x * t ^ 2 + s.coeff3.x * t ^ 3,
   s.coeff0.y + s.coeff1.y * t + s.coeff2.y * t ^ 2 + s.coeff3.y * t ^ 3⟩

/-- `CubicSegment::velocity`: `b + c*2*t + d*3*t^2`, componentwise. -/
def CubicSegment.velocity (s : CubicSegment) (t : Rat) : Vec2 :=
  ⟨s.coeff1.x + s.coeff2.x * 2 * t + s.coeff3.x * 3 * t ^ 2,
   s.coeff1.y + s.coeff2.y * 2 * t + s.coeff3.y * 3 * t ^ 2⟩

/-- The Newton iteration loop of `CubicSegment::find_y_given_x`. The fuel is
the remaining iteration count, `t` the current parameter guess, `pos` the
value of the mutable `pos_guess` variable entering the iteration (it is
`Vec2::ZERO` before the first iteration and the previously evaluated position
afterwards). Division by zero in Rust produces `inf`/`NaN`; in `Rat` it
produces 0 — none of the theorems below depend on the value of a division by
zero, only on where the quotient flows (the next parameter guess). -/
def newton_loop (s : CubicSegment) (x max_error : Rat) :
    Nat → Rat → Vec2 → Vec2
  | 0, _, pos => pos
  | Nat.succ n, t, _ =>
    let pos := s.position t
    let error := pos.x - x
    if |error| ≤ max_error then pos
    else newton_loop s x max_error n (t - error / (s.velocity t).x) pos

/-- `CubicSegment::find_y_given_x`: run up to `max_iters` Newton steps
starting from `t_guess = x` and `pos_guess = Vec2::ZERO`, then return
`pos_guess.y`. -/
def CubicSegment.find_y_given_x (s : CubicSegment) (x max_error : Rat)
    (max_iters : Nat) : Rat :=
  (newton_loop s x max_error max_iters x ⟨0, 0⟩).y

/-- `unweighted_cubic_interp` from `src/lib.rs`: closed-form cubic Hermite. -/
def unweighted_cubic_interp (knot_a knot_b : Knot) (x : Rat) : Rat :=
  let s := (x - knot_a.position.x) / (knot_b.position.x - knot_a.position.x)
  let dx := knot_b.position.x - knot_a.position.x
  let m0 := knot_a.right_tangent.slope * dx
  let m1 := knot_b.left_tangent.slope * dx
  let s2 := s * s
  let s3 := s2 * s
  let a := 2 * s3 - 3 * s2 + 1
  let b := s3 - 2 * s2 + s
  let c := s3 - s2
  let d := -2 * s3 + 3 * s2
  a * knot_a.position.y + b * m0 + c * m1 + d * knot_b.position.y

/-- `weighted_cubic_interp` from `src/lib.rs`: Bezier control points, then
Newton inversion. -/
def weighted_cubic_interp (knot_a knot_b : Knot) (x max_error : Rat)
    (max_iters : Nat) : Rat :=
  (CubicSegment.from_bezier_points (knot_a.compute_bezier_to knot_b)).find_y_given_x
    x max_error max_iters

/-- The "Find left knot" step of `lookup_internal`: run the cached search
when a cache was passed, the plain search otherwise, pairing the found index
with the new cache contents (in the same `Option` shape as the argument). -/
def LookupCurve.searchStep (cu : LookupCurve) (x : Rat)
    (cache : Option (Option Nat)) : Option (Nat × Option (Option Nat)) :=
  match cache with
  | some cc =>
    (search_knots_with_cache cu.knots x cc).map (fun p => (p.1, some p.2))
  | none => (search_knots cu.knots x).map (fun i => (i, none))

/-- The "Interpolate" match of `lookup_internal`: dispatch on the left
knot's interpolation mode (the indexing `self.knots[i]` / `self.knots[i+1]`
panics are `none`). -/
def LookupCurve.interp_at (cu : LookupCurve) (x : Rat) (i : Nat) : Option Rat :=
  match cu.knots[i]? with
  | none => none
  | some knot_a =>
    match knot_a.interpolation with
    | KnotInterpolation.Constant => some knot_a.position.y
    | KnotInterpolation.Linear =>
      match cu.knots[i + 1]? with
      | none => none
      | some knot_b =>
        let s := (x - knot_a.position.x) / (knot_b.position.x - knot_a.position.x)
        some (knot_a.position.lerp knot_b.position s).y
    | KnotInterpolation.Cubic =>
      match cu.knots[i + 1]? with
      | none => none
      | some knot_b =>
        if (knot_a.right_tangent.weight.isSome ||
            knot_b.left_tangent.weight.isSome) = true then
          some (weighted_cubic_interp knot_a knot_b x cu.max_error cu.max_iters)
        else
          some (unweighted_cubic_interp knot_a knot_b x)

/-- `LookupCurve::lookup_internal`. The `Option<&mut LookupCache>` argument
is modelled as `Option (Option Nat)` (is a cache present, and its contents);
the result carries the final cache contents in the same shape. -/
def LookupCurve.lookup_internal (cu : LookupCurve) (x : Rat)
    (cache : Option (Option Nat)) : Option (Rat × Option (Option Nat)) :=
  if cu.knots.length = 0 then some (0, cache)
  else
    match cu.knots[0]?, cu.knots[cu.knots.length - 1]? with
    | some k0, some klast =>
      if cu.knots.length = 1 ∨ x ≤ k0.position.x then some (k0.position.y, cache)
      else if klast.position.x ≤ x then some (klast.position.y, cache)
      else
        match cu.searchStep x cache with
        | none => none
        | some (i, cache2) =>
          match cu.interp_at x i with
          | none => none
          | some y => some (y, cache2)
    | _, _ => none

/-- `LookupCurve::lookup`: no cache. -/
def LookupCurve.lookup (cu : LookupCurve) (x : Rat) : Option Rat :=
  (cu.lookup_internal x none).map (fun p => p.1)

/-- `LookupCurve::lookup_cached`: threads the caller-owned cache contents
through `lookup_internal` and returns (value, final cache contents). -/
def LookupCurve.lookup_cached (cu : LookupCurve) (x : Rat) (cc : Option Nat) :
    Option (Rat × Option Nat) :=
  match cu.lookup_internal x (some cc) with
  | none => none
  | some (v, some cc2) => some (v, cc2)
  | some (_, none) => none

/-- `LookupCurve::add_knot`: append fast path, otherwise insert at the
partition point. Returns the new curve and the index of the added knot. -/
def LookupCurve.add_knot (cu : LookupCurve) (knot : Knot) : LookupCurve × Nat :=
  if (cu.knots.isEmpty ||
      (match cu.knots.getLast? with
       | some last => decide (last.position.x < knot.position.x)
       | none => false)) = true then
    ({ cu with knots := cu.knots ++ [knot] }, cu.knots.length)
  else
    let i := partition_point (fun k => decide (k.position.x < knot.position.x)) cu.knots
    ({ cu with knots := cu.knots.insertIdx i knot }, i)

/-- `LookupCurve::modify_knot`. `self.knots[i]` panics on a bad index
(`none`). Returns the new curve and the new index of the knot. -/
def LookupCurve.modify_knot (cu : LookupCurve) (i : Nat) (new_value : Knot) :
    Option (LookupCurve × Nat) :=
  match cu.knots[i]? with
  | none => none
  | some old_value =>
    if old_value.position.x = new_value.position.x then
      some ({ cu with knots := cu.knots.set i new_value }, i)
    else
      let new_i := partition_point
        (fun k => decide (k.position.x < new_value.position.x)) cu.knots
      if new_i = i then
        some ({ cu with knots := cu.knots.set i new_value }, i)
      else
        let removed := cu.knots.eraseIdx i
        let insert_i := if i < new_i then new_i - 1 else new_i
        some ({ cu with knots := removed.insertIdx insert_i new_value }, insert_i)

/-- `LookupCurve::delete_knot`: `Vec::remove` panics on a bad index. -/
def LookupCurve.delete_knot (cu : LookupCurve) (i : Nat) : Option LookupCurve :=
  if i < cu.knots.length then some { cu with knots := cu.knots.eraseIdx i }
  else none

/-- The knot list is sorted ascending (non-decreasing) by `position.x`. -/
def sortedByX (l : List Knot) : Prop :=
  l.Pairwise (fun a b => a.position.x ≤ b.position.x)

/-- No two knots of the list share an `id`. -/
def DistinctIds (l : List Knot) : Prop :=
  l.Pairwise (fun a b => a.id ≠ b.id)

/-! ### Toolkit: `partition_point` and `position_of` -/

lemma partition_point_le_length (p : Knot → Bool) :
    ∀ l : List Knot, partition_point p l ≤ l.length
  | [] => Nat.le_refl 0
  | k :: rest => by
    by_cases h : p k
    · simpa [partition_point, h] using partition_point_le_length p rest
    · simp [partition_point, h]

lemma pred_true_of_lt_partition_point (p : Knot → Bool) :
    ∀ (l : List Knot) (i : Nat) (k : Knot),
      i < partition_point p l → l[i]? = some k → p k = true
  | [], i, k, hi, _ => by simp [partition_point] at hi
  | k0 :: rest, i, k, hi, hk => by
    by_cases h : p k0
    · match i with
      | 0 =>
        simp only [List.getElem?_cons_zero, Option.some_inj] at hk
        exact hk ▸ h
      | Nat.succ j =>
        simp only [partition_point, h, if_true] at hi
        simp only [List.getElem?_cons_succ] at hk
        exact pred_true_of_lt_partition_point p rest j k (Nat.lt_of_succ_lt_succ hi) hk
    · simp [partition_point, h] at hi

lemma pred_false_at_partition_point (p : Knot → Bool) :
    ∀ (l : List Knot) (k : Knot),
      l[partition_point p l]? = some k → p k = false
  | [], k, hk => by simp at hk
  | k0 :: rest, k, hk => by
    by_cases h : p k0
    · simp only [partition_point, h, if_true, List.getElem?_cons_succ] at hk
      exact pred_false_at_partition_point p rest k hk
    · have h' : p k0 = false := by simpa using h
      simp only [partition_point, h', Bool.false_eq_true, if_false,
        List.getElem?_cons_zero, Option.some_inj] at hk
      subst hk
      exact h'

lemma position_of_eq_some (p : Knot → Bool) :
    ∀ (l : List Knot) (n : Nat) (kn : Knot),
      (∀ i k, i < n → l[i]? = some k → p k = false) →
      l[n]? = some kn → p kn = true →
      position_of p l = some n
  | [], n, kn, _, hn, _ => by simp at hn
  | k0 :: rest, 0, kn, _, hn, hp => by
    simp only [List.getElem?_cons_zero, Option.some_inj] at hn
    subst hn
    simp [position_of, hp]
  | k0 :: rest, Nat.succ n, kn, hfail, hn, hp => by
    have h0 : p k0 = false := hfail 0 k0 (Nat.succ_pos n) (by simp)
    simp only [List.getElem?_cons_succ] at hn
    have ih := position_of_eq_some p rest n kn
      (fun i k hi hk => hfail (i + 1) k (Nat.succ_lt_succ hi) (by simpa using hk))
      hn hp
    simp [position_of, h0, ih]

lemma position_of_eq_none (p : Knot → Bool) :
    ∀ l : List Knot, (∀ k ∈ l, p k = false) → position_of p l = none
  | [], _ => rfl
  | k0 :: rest, h => by
    have h0 : p k0 = false := h k0 (List.mem_cons_self k0 rest)
    have ih := position_of_eq_none p rest (fun k hk => h k (List.mem_cons_of_mem k0 hk))
    simp [position_of, h0, ih]

/-! ### Toolkit: sorted lists -/

lemma sortedByX_mono {l : List Knot} (hs : sortedByX l) {i j : Nat} {a b : Knot}
    (hij : i ≤ j) (ha : l[i]? = some a) (hb : l[j]? = some b) :
    a.position.x ≤ b.position.x := by
  rcases List.getElem?_eq_some.1 ha with ⟨hi, ha'⟩
  rcases List.getElem?_eq_some.1 hb with ⟨hj, hb'⟩
  rcases Nat.lt_or_ge i j with h | h
  · exact ha' ▸ hb' ▸ List.pairwise_iff_getElem.1 hs i j hi hj h
  · have hij' : i = j := Nat.le_antisymm hij h
    subst hij'
    have : a = b := by rw [← ha', ← hb']
    exact this ▸ le_refl _

lemma sorted_ge_partition_point {l : List Knot} {x : Rat} (hs : sortedByX l)
    {i : Nat} {k : Knot}
    (hpi : partition_point (fun k => decide (k.position.x < x)) l ≤ i)
    (hk : l[i]? = some k) : x ≤ k.position.x := by
  have hi : i < l.length := (List.getElem?_eq_some.1 hk).1
  have hppl : partition_point (fun k => decide (k.position.x < x)) l < l.length :=
    Nat.lt_of_le_of_lt hpi hi
  have hkp : l[partition_point (fun k => decide (k.position.x < x)) l]? =
      some l[partition_point (fun k => decide (k.position.x < x)) l] :=
    List.getElem?_eq_getElem hppl
  have hfalse := pred_false_at_partition_point _ l _ hkp
  have hxkp : x ≤ (l[partition_point (fun k => decide (k.position.x < x)) l]).position.x := by
    have := of_decide_eq_false hfalse
    exact le_of_not_lt this
  exact le_trans hxkp (sortedByX_mono hs hpi hkp hk)

lemma partition_point_pos {l : List Knot} {x : Rat} {k0 : Knot}
    (h0 : l[0]? = some k0) (hx0 : k0.position.x < x) :
    1 ≤ partition_point (fun k => decide (k.position.x < x)) l := by
  match l with
  | [] => simp at h0
  | k :: rest =>
    simp only [List.getElem?_cons_zero, Option.some_inj] at h0
    subst h0
    simp [partition_point, hx0]

lemma partition_point_lt_length {l : List Knot} {x : Rat} {klast : Knot}
    (hl : l[l.length - 1]? = some klast) (hxl : x < klast.position.x) :
    partition_point (fun k => decide (k.position.x < x)) l < l.length := by
  have hlen : l.length - 1 < l.length := (List.getElem?_eq_some.1 hl).1
  rcases Nat.lt_or_ge (partition_point (fun k => decide (k.position.x < x)) l)
    l.length with h | h
  · exact h
  · exfalso
    have hle := partition_point_le_length (fun k => decide (k.position.x < x)) l
    have hlt : l.length - 1 < partition_point (fun k => decide (k.position.x < x)) l := by
      omega
    have := pred_true_of_lt_partition_point _ l _ klast hlt hl
    have := of_decide_eq_true this
    exact absurd hxl (not_lt.2 (le_of_lt this))

/-- Abbreviation: the partition point of the predicate `knot.position.x < x`
used throughout `knot_search.rs`. -/
def ppx (x : Rat) (l : List Knot) : Nat :=
  partition_point (fun k => decide (k.position.x < x)) l

lemma ppx_def (x : Rat) (l : List Knot) :
    partition_point (fun k => decide (k.position.x < x)) l = ppx x l := rfl

lemma ppx_le_length (x : Rat) (l : List Knot) : ppx x l ≤ l.length :=
  partition_point_le_length _ l

lemma ppx_lt {x : Rat} {l : List Knot} {i : Nat} {k : Knot}
    (hi : i < ppx x l) (hk : l[i]? = some k) : k.position.x < x :=
  of_decide_eq_true (pred_true_of_lt_partition_point _ l i k hi hk)

lemma ppx_ge {x : Rat} {l : List Knot} (hs : sortedByX l) {i : Nat} {k : Knot}
    (hi : ppx x l ≤ i) (hk : l[i]? = some k) : x ≤ k.position.x :=
  sorted_ge_partition_point hs hi hk

lemma ppx_pos {x : Rat} {l : List Knot} {k0 : Knot}
    (h0 : l[0]? = some k0) (hx0 : k0.position.x < x) : 1 ≤ ppx x l :=
  partition_point_pos h0 hx0

lemma ppx_lt_length {x : Rat} {l : List Knot} {klast : Knot}
    (hl : l[l.length - 1]? = some klast) (hxl : x < klast.position.x) :
    ppx x l < l.length :=
  partition_point_lt_length hl hxl

lemma ppx_zero {x : Rat} {l : List Knot} {k0 : Knot} (hs : sortedByX l)
    (h0 : l[0]? = some k0) (hx0 : ¬ k0.position.x < x) : ppx x l = 0 := by
  match l with
  | [] => rfl
  | k :: rest =>
    simp only [List.getElem?_cons_zero, Option.some_inj] at h0
    subst h0
    simp [ppx, partition_point, hx0]

/-! ### Characterization of the uncached searches in range -/

lemma search_binary_eq {l : List Knot} {x : Rat} {k0 : Knot}
    (h0 : l[0]? = some k0) (hx0 : k0.position.x < x) :
    search_knots_binary l x = some (ppx x l - 1) := by
  have h1 := ppx_pos h0 hx0
  simp only [search_knots_binary, checked_sub, ppx_def]
  rw [if_pos h1]

lemma search_linear_eq {l : List Knot} {x : Rat} {k0 klast : Knot}
    (h0 : l[0]? = some k0) (hl : l[l.length - 1]? = some klast)
    (hx0 : k0.position.x < x) (hxl : x < klast.position.x) :
    search_knots_linear l x = some (ppx x l - 1) := by
  have h1 := ppx_pos h0 hx0
  have h2 := ppx_lt_length hl hxl
  have hkp : l[ppx x l]? = some l[ppx x l] := List.getElem?_eq_getElem h2
  have hppge : x ≤ (l[ppx x l]).position.x := by
    have hf := pred_false_at_partition_point (fun k => decide (k.position.x < x)) l _ hkp
    exact le_of_not_lt (of_decide_eq_false hf)
  have hpos : position_of (fun k => decide (x ≤ k.position.x)) l = some (ppx x l) := by
    apply position_of_eq_some _ l (ppx x l) (l[ppx x l])
    · intro i k hi hk
      exact decide_eq_false (not_le.2 (ppx_lt hi hk))
    · exact hkp
    · exact decide_eq_true hppge
  simp only [search_knots_linear, hpos, checked_sub]
  rw [if_pos h1]

lemma search_linear_rev_eq {l : List Knot} {x : Rat} {k0 klast : Knot}
    (hs : sortedByX l) (h0 : l[0]? = some k0) (hl : l[l.length - 1]? = some klast)
    (hx0 : k0.position.x < x) (hxl : x < klast.position.x) :
    search_knots_linear_rev l x = some (ppx x l - 1) := by
  have h1 := ppx_pos h0 hx0
  have h2 := ppx_lt_length hl hxl
  have hrevlen : l.reverse.length = l.length := List.length_reverse l
  have hidx : l.length - 1 - (l.length - ppx x l) = ppx x l - 1 := by omega
  have hgoal : l[ppx x l - 1]? = some l[ppx x l - 1] :=
    List.getElem?_eq_getElem (by omega)
  have hrevn : l.reverse[l.length - ppx x l]? = some l[ppx x l - 1] := by
    rw [List.getElem?_reverse (by omega)]
    simp only [hidx]
    exact hgoal
  have hpsat : decide ((l[ppx x l - 1]).position.x < x) = true :=
    decide_eq_true (ppx_lt (by omega) hgoal)
  have hpos : position_of (fun k => decide (k.position.x < x)) l.reverse =
      some (l.length - ppx x l) := by
    apply position_of_eq_some _ l.reverse (l.length - ppx x l) (l[ppx x l - 1])
    · intro j k hj hk
      have hjlen : j < l.length := by omega
      rw [List.getElem?_reverse hjlen] at hk
      have hge : x ≤ k.position.x := ppx_ge hs (by omega) hk
      exact decide_eq_false (not_lt.2 hge)
    · exact hrevn
    · exact hpsat
  simp only [search_knots_linear_rev, hpos]
  congr 1
  omega

lemma searches_none_of_eq {l : List Knot} {x : Rat} {k0 : Knot}
    (hs : sortedByX l) (h0 : l[0]? = some k0) (hx0 : k0.position.x = x) :
    search_knots_binary l x = none ∧ search_knots_linear l x = none ∧
    search_knots_linear_rev l x = none := by
  have hpp0 : ppx x l = 0 := ppx_zero hs h0 (by rw [hx0]; exact lt_irrefl x)
  have hall : ∀ k ∈ l, x ≤ k.position.x := by
    intro k hk
    rcases List.getElem?_of_mem hk with ⟨n, hn⟩
    exact ppx_ge hs (by omega) hn
  refine ⟨?_, ?_, ?_⟩
  · simp only [search_knots_binary, ppx_def, hpp0]
    simp [checked_sub]
  · have hpos : position_of (fun k => decide (x ≤ k.position.x)) l = some 0 := by
      apply position_of_eq_some _ l 0 k0
      · intro i k hi hk
        omega
      · exact h0
      · exact decide_eq_true (le_of_eq hx0.symm)
    simp [search_knots_linear, hpos, checked_sub]
  · have hpos : position_of (fun k => decide (k.position.x < x)) l.reverse = none := by
      apply position_of_eq_none
      intro k hk
      have hk' : k ∈ l := List.mem_reverse.1 hk
      exact decide_eq_false (not_lt.2 (hall k hk'))
    simp [search_knots_linear_rev, hpos]

lemma ppx_at {x : Rat} {l : List Knot} (h2 : ppx x l < l.length) :
    x ≤ (l[ppx x l]).position.x := by
  have hkp : l[ppx x l]? = some l[ppx x l] := List.getElem?_eq_getElem h2
  have hf := pred_false_at_partition_point (fun k => decide (k.position.x < x)) l _ hkp
  exact le_of_not_lt (of_decide_eq_false hf)

/-! ### The cached search agrees with the uncached search -/

lemma search_with_cache_overwrites (l : List Knot) (x : Rat) (cc : Option Nat)
    {i : Nat} {c' : Option Nat}
    (h : search_knots_with_cache l x cc = some (i, c')) : c' = some i := by
  rcases hX : cache_found l x cc with _ | j
  · rw [search_knots_with_cache, hX] at h
    exact absurd h (by simp)
  · rw [search_knots_with_cache, hX] at h
    simp only [Option.some_inj, Prod.mk.injEq] at h
    rw [← h.2, h.1]

lemma cache_found_prefix_rev {l : List Knot} {x : Rat} {k0 : Knot}
    (hs : sortedByX l) (h0 : l[0]? = some k0) (hx0 : k0.position.x < x)
    {c : Nat} (hc : c < l.length) (hppc : ppx x l ≤ c) :
    search_knots_linear_rev (l.take c) x = some (ppx x l - 1) := by
  have h1 : 1 ≤ ppx x l := ppx_pos h0 hx0
  have hTlen : (l.take c).length = c := by
    rw [List.length_take]
    omega
  have hidx1 : c - 1 - (c - ppx x l) = ppx x l - 1 := by omega
  have hgetpp : (l.take c)[ppx x l - 1]? = l[ppx x l - 1]? :=
    List.getElem?_take_of_lt (by omega)
  have hlpp : l[ppx x l - 1]? = some l[ppx x l - 1] :=
    List.getElem?_eq_getElem (by omega)
  have hrevn : (l.take c).reverse[c - ppx x l]? = some l[ppx x l - 1] := by
    rw [List.getElem?_reverse (by rw [hTlen]; omega)]
    simp only [hTlen]
    simp only [hidx1]
    rw [hgetpp]
    exact hlpp
  have hpos : position_of (fun k => decide (k.position.x < x)) (l.take c).reverse =
      some (c - ppx x l) := by
    apply position_of_eq_some _ _ _ (l[ppx x l - 1])
    · intro j k hj hk
      have hjT : j < (l.take c).length := by rw [hTlen]; omega
      rw [List.getElem?_reverse hjT] at hk
      rw [hTlen] at hk
      have hkl : l[c - 1 - j]? = some k := by
        rw [← List.getElem?_take_of_lt (show c - 1 - j < c by omega)]
        exact hk
      exact decide_eq_false (not_lt.2 (ppx_ge hs (by omega) hkl))
    · exact hrevn
    · exact decide_eq_true (ppx_lt (by omega) hlpp)
  simp only [search_knots_linear_rev, hpos]
  congr 1
  rw [hTlen]
  omega

lemma cache_found_suffix_linear {l : List Knot} {x : Rat} {klast : Knot}
    (hl : l[l.length - 1]? = some klast) (hxl : x < klast.position.x)
    {c : Nat} (hcpp : c < ppx x l) :
    (search_knots_linear (l.drop c) x).map (fun j => c + j) =
      some (ppx x l - 1) := by
  have h2 : ppx x l < l.length := ppx_lt_length hl hxl
  have hdpp : (l.drop c)[ppx x l - c]? = l[ppx x l]? := by
    rw [List.getElem?_drop]
    congr 1
    omega
  have hlpp : l[ppx x l]? = some l[ppx x l] := List.getElem?_eq_getElem h2
  have hpos : position_of (fun k => decide (x ≤ k.position.x)) (l.drop c) =
      some (ppx x l - c) := by
    apply position_of_eq_some _ _ _ (l[ppx x l])
    · intro j k hj hk
      rw [List.getElem?_drop] at hk
      exact decide_eq_false (not_le.2 (ppx_lt (by omega) hk))
    · rw [hdpp]
      exact hlpp
    · exact decide_eq_true (ppx_at h2)
  simp only [search_knots_linear, hpos, checked_sub]
  rw [if_pos (by omega : 1 ≤ ppx x l - c)]
  simp only [Option.map_some']
  congr 1
  omega

lemma cache_found_eq {l : List Knot} {x : Rat} {k0 klast : Knot}
    (hs : sortedByX l) (h0 : l[0]? = some k0) (hl : l[l.length - 1]? = some klast)
    (hx0 : k0.position.x ≤ x) (hxl : x < klast.position.x) (cc : Option Nat) :
    cache_found l x cc = search_knots l x := by
  have hlen1 : 0 < l.length := (List.getElem?_eq_some.1 h0).1
  have hlen2 : 2 ≤ l.length := by
    rcases Nat.lt_or_ge l.length 2 with h | h
    · exfalso
      have h1 : l.length = 1 := by omega
      have : l[l.length - 1]? = l[0]? := by simp only [h1]
      rw [this, h0] at hl
      simp only [Option.some_inj] at hl
      rw [hl] at hx0
      exact absurd hxl (not_lt.2 hx0)
    · exact h
  cases cc with
  | none => rfl
  | some c =>
    simp only [cache_found]
    have hsub : checked_sub l.length 2 = some (l.length - 2) := by
      simp only [checked_sub]
      rw [if_pos hlen2]
    simp only [hsub]
    by_cases hstale : l.length - 2 < c
    · rw [if_pos hstale]
    · rw [if_neg hstale]
      have hc : c < l.length := by omega
      have hkc : l[c]? = some l[c] := List.getElem?_eq_getElem hc
      simp only [hkc]
      by_cases hxc : x ≤ (l[c]).position.x
      · rw [if_pos hxc]
        rcases lt_or_eq_of_le hx0 with hx0' | hx0'
        · have hppc : ppx x l ≤ c := by
            by_contra hcon
            push_neg at hcon
            exact absurd hxc (not_le.2 (ppx_lt hcon hkc))
          rw [cache_found_prefix_rev hs h0 hx0' hc hppc,
            search_knots, search_binary_eq h0 hx0']
        · have hnone := searches_none_of_eq hs h0 hx0'
          rw [search_knots, hnone.1]
          have hposn : position_of (fun k => decide (k.position.x < x))
              (l.take c).reverse = none := by
            apply position_of_eq_none
            intro k hk
            have hk1 : k ∈ l.take c := List.mem_reverse.1 hk
            have hk2 : k ∈ l := (List.take_sublist c l).subset hk1
            rcases List.getElem?_of_mem hk2 with ⟨n, hn⟩
            have hpp0 : ppx x l = 0 := ppx_zero hs h0 (by rw [hx0']; exact lt_irrefl x)
            exact decide_eq_false (not_lt.2 (ppx_ge hs (by omega) hn))
          rw [search_knots_linear_rev, hposn]
      · rw [if_neg hxc]
        have hcpp : c < ppx x l := by
          by_contra hcon
          push_neg at hcon
          exact absurd (ppx_ge hs hcon hkc) hxc
        rw [cache_found_suffix_linear hl hxl hcpp]
        have h1 : 1 ≤ ppx x l := by omega
        simp only [search_knots, search_knots_binary, checked_sub, ppx_def]
        rw [if_pos h1]

lemma search_with_cache_eq {l : List Knot} {x : Rat} {k0 klast : Knot}
    (hs : sortedByX l) (h0 : l[0]? = some k0) (hl : l[l.length - 1]? = some klast)
    (hx0 : k0.position.x ≤ x) (hxl : x < klast.position.x) (cc : Option Nat) :
    search_knots_with_cache l x cc =
      (search_knots l x).map (fun i => (i, some i)) := by
  rw [search_knots_with_cache, cache_found_eq hs h0 hl hx0 hxl cc]
  cases search_knots l x <;> rfl

/-! ### Unfolding `lookup_internal` branch by branch -/

lemma lookup_internal_empty (cu : LookupCurve) (x : Rat)
    (cache : Option (Option Nat)) (h : cu.knots = []) :
    cu.lookup_internal x cache = some (0, cache) := by
  simp [LookupCurve.lookup_internal, h]

lemma lookup_internal_first (cu : LookupCurve) (x : Rat)
    (cache : Option (Option Nat)) {k0 : Knot} (h0 : cu.knots[0]? = some k0)
    (h : cu.knots.length = 1 ∨ x ≤ k0.position.x) :
    cu.lookup_internal x cache = some (k0.position.y, cache) := by
  have hlen : 0 < cu.knots.length := (List.getElem?_eq_some.1 h0).1
  obtain ⟨kl, hlast⟩ : ∃ kl, cu.knots[cu.knots.length - 1]? = some kl :=
    ⟨_, List.getElem?_eq_getElem (by omega)⟩
  rw [LookupCurve.lookup_internal, if_neg (by omega : ¬ cu.knots.length = 0)]
  simp only [h0, hlast]
  rw [if_pos h]

lemma lookup_internal_last (cu : LookupCurve) (x : Rat)
    (cache : Option (Option Nat)) {k0 klast : Knot} (h0 : cu.knots[0]? = some k0)
    (hlast : cu.knots[cu.knots.length - 1]? = some klast)
    (hx0 : ¬ x ≤ k0.position.x) (hxl : klast.position.x ≤ x) :
    cu.lookup_internal x cache = some (klast.position.y, cache) := by
  have hlen : 0 < cu.knots.length := (List.getElem?_eq_some.1 h0).1
  by_cases h1 : cu.knots.length = 1
  · have hsame : cu.knots[cu.knots.length - 1]? = cu.knots[0]? := by
      simp only [h1]
    rw [hsame, h0] at hlast
    simp only [Option.some_inj] at hlast
    rw [lookup_internal_first cu x cache h0 (Or.inl h1), hlast]
  · rw [LookupCurve.lookup_internal, if_neg (by omega : ¬ cu.knots.length = 0)]
    simp only [h0, hlast]
    rw [if_neg (by
      intro hor
      rcases hor with hor | hor
      · exact h1 hor
      · exact hx0 hor)]
    rw [if_pos hxl]

lemma lookup_internal_main (cu : LookupCurve) (x : Rat)
    (cache : Option (Option Nat)) {k0 klast : Knot} (h0 : cu.knots[0]? = some k0)
    (hlast : cu.knots[cu.knots.length - 1]? = some klast)
    (h1 : cu.knots.length ≠ 1) (hx0 : ¬ x ≤ k0.position.x)
    (hxl : ¬ klast.position.x ≤ x) :
    cu.lookup_internal x cache =
      match cu.searchStep x cache with
      | none => none
      | some (i, cache2) =>
        match cu.interp_at x i with
        | none => none
        | some y => some (y, cache2) := by
  have hlen : 0 < cu.knots.length := (List.getElem?_eq_some.1 h0).1
  rw [LookupCurve.lookup_internal, if_neg (by omega : ¬ cu.knots.length = 0)]
  simp only [h0, hlast]
  rw [if_neg (by
    intro hor
    rcases hor with hor | hor
    · exact h1 hor
    · exact hx0 hor)]
  rw [if_neg hxl]

/-! ### Toolkit: membership, insertion, erasure, and sorted order -/

lemma mem_take_idx {l : List Knot} {n : Nat} {a : Knot} (h : a ∈ l.take n) :
    ∃ j, j < n ∧ l[j]? = some a := by
  rcases List.getElem?_of_mem h with ⟨j, hj⟩
  have hlen := (List.getElem?_eq_some.1 hj).1
  have hjn : j < n := by
    have := List.length_take n l
    omega
  refine ⟨j, hjn, ?_⟩
  rw [← List.getElem?_take_of_lt hjn]
  exact hj

lemma mem_drop_idx {l : List Knot} {n : Nat} {b : Knot} (h : b ∈ l.drop n) :
    ∃ j, n ≤ j ∧ l[j]? = some b := by
  rcases List.getElem?_of_mem h with ⟨j, hj⟩
  rw [List.getElem?_drop] at hj
  exact ⟨n + j, Nat.le_add_right n j, hj⟩

lemma mem_insertIdx_elim {v a : Knot} :
    ∀ (l : List Knot) (m : Nat), a ∈ l.insertIdx m v → a = v ∨ a ∈ l
  | l, 0, h => by
    rw [List.insertIdx_zero] at h
    exact List.mem_cons.1 h
  | [], Nat.succ m, h => by
    rw [List.insertIdx_succ_nil] at h
    exact absurd h (List.not_mem_nil a)
  | k :: rest, Nat.succ m, h => by
    rw [List.insertIdx_succ_cons] at h
    rcases List.mem_cons.1 h with h | h
    · exact Or.inr (h ▸ List.mem_cons_self k rest)
    · rcases mem_insertIdx_elim rest m h with h | h
      · exact Or.inl h
      · exact Or.inr (List.mem_cons_of_mem k h)

lemma sortedByX_insertIdx (v : Knot) :
    ∀ (l : List Knot) (m : Nat), sortedByX l →
      (∀ a ∈ l.take m, a.position.x ≤ v.position.x) →
      (∀ b ∈ l.drop m, v.position.x ≤ b.position.x) →
      sortedByX (l.insertIdx m v)
  | l, 0, hs, _, hd => by
    rw [List.insertIdx_zero]
    exact List.pairwise_cons.2 ⟨fun b hb => hd b (by simpa using hb), hs⟩
  | [], Nat.succ m, _, _, _ => by
    rw [List.insertIdx_succ_nil]
    exact List.Pairwise.nil
  | k :: rest, Nat.succ m, hs, ht, hd => by
    rw [List.insertIdx_succ_cons]
    rcases List.pairwise_cons.1 hs with ⟨hk, hrest⟩
    refine List.pairwise_cons.2 ⟨?_, ?_⟩
    · intro a ha
      rcases mem_insertIdx_elim rest m ha with rfl | ha'
      · exact ht k (by rw [List.take_succ_cons]; exact List.mem_cons_self _ _)
      · exact hk a ha'
    · refine sortedByX_insertIdx v rest m hrest ?_ ?_
      · intro a ha
        exact ht a (by rw [List.take_succ_cons]; exact List.mem_cons_of_mem k ha)
      · intro b hb
        exact hd b (by rwa [List.drop_succ_cons])

lemma eraseIdx_eq_take_drop :
    ∀ (l : List Knot) (i : Nat), l.eraseIdx i = l.take i ++ l.drop (i + 1)
  | [], i => by simp
  | k :: rest, 0 => by simp
  | k :: rest, Nat.succ i => by
    rw [List.eraseIdx_cons_succ, List.take_succ_cons, List.drop_succ_cons,
      eraseIdx_eq_take_drop rest i]
    rfl

lemma sortedByX_set {l : List Knot} {i : Nat} (v : Knot) (hi : i < l.length)
    (hs : sortedByX l)
    (ht : ∀ a ∈ l.take i, a.position.x ≤ v.position.x)
    (hd : ∀ b ∈ l.drop (i + 1), v.position.x ≤ b.position.x) :
    sortedByX (l.set i v) := by
  rw [List.set_eq_take_cons_drop v hi]
  unfold sortedByX
  rw [List.pairwise_append]
  refine ⟨List.Pairwise.sublist (List.take_sublist i l) hs, ?_, ?_⟩
  · refine List.pairwise_cons.2 ⟨fun b hb => hd b hb, List.Pairwise.sublist (List.drop_sublist (i + 1) l) hs⟩
  · intro a ha b hb
    rcases List.mem_cons.1 hb with rfl | hb'
    · exact ht a ha
    · exact le_trans (ht a ha) (hd b hb')

lemma sorted_take_le {l : List Knot} {i : Nat} {ki : Knot} (hs : sortedByX l)
    (hki : l[i]? = some ki) : ∀ a ∈ l.take i, a.position.x ≤ ki.position.x := by
  intro a ha
  rcases mem_take_idx ha with ⟨j, hj, hja⟩
  exact sortedByX_mono hs (le_of_lt hj) hja hki

lemma sorted_le_getLast {l : List Knot} {kl : Knot} (hs : sortedByX l)
    (hkl : l.getLast? = some kl) : ∀ a ∈ l, a.position.x ≤ kl.position.x := by
  intro a ha
  rw [List.getLast?_eq_getElem?] at hkl
  rcases List.getElem?_of_mem ha with ⟨j, hj⟩
  have hjlen : j < l.length := (List.getElem?_eq_some.1 hj).1
  exact sortedByX_mono hs (by omega) hj hkl

lemma take_ppx_le {x : Rat} {l : List Knot} {m : Nat} (hm : m ≤ ppx x l) :
    ∀ a ∈ l.take m, a.position.x ≤ x := by
  intro a ha
  rcases mem_take_idx ha with ⟨j, hj, hja⟩
  exact le_of_lt (ppx_lt (by omega) hja)

lemma drop_ppx_ge {x : Rat} {l : List Knot} {m : Nat} (hs : sortedByX l)
    (hm : ppx x l ≤ m) : ∀ b ∈ l.drop m, x ≤ b.position.x := by
  intro b hb
  rcases mem_drop_idx hb with ⟨j, hj, hjb⟩
  exact ppx_ge hs (by omega) hjb

lemma distinctIds_insertIdx {l : List Knot} {v : Knot} {m : Nat}
    (hm : m ≤ l.length) (hd : DistinctIds l) (hv : ∀ a ∈ l, a.id ≠ v.id) :
    DistinctIds (l.insertIdx m v) := by
  have hperm := List.perm_insertIdx v l hm
  unfold DistinctIds at *
  rw [List.Perm.pairwise_iff (fun h => Ne.symm h) hperm]
  exact List.pairwise_cons.2 ⟨fun a ha => Ne.symm (hv a ha), hd⟩

lemma distinctIds_set {l : List Knot} {v : Knot} {i : Nat} (hi : i < l.length)
    (hd : DistinctIds l) (hv : ∀ a ∈ l.eraseIdx i, a.id ≠ v.id) :
    DistinctIds (l.set i v) := by
  have herase := eraseIdx_eq_take_drop l i
  have hde : DistinctIds (l.take i ++ l.drop (i + 1)) := by
    rw [← herase]
    exact List.Pairwise.sublist (List.eraseIdx_sublist l i) hd
  rw [herase] at hv
  rw [List.set_eq_take_cons_drop v hi]
  unfold DistinctIds at *
  rw [List.pairwise_append] at hde ⊢
  refine ⟨hde.1, ?_, ?_⟩
  · refine List.pairwise_cons.2 ⟨?_, hde.2.1⟩
    intro b hb
    exact Ne.symm (hv b (List.mem_append.2 (Or.inr hb)))
  · intro a ha b hb
    rcases List.mem_cons.1 hb with rfl | hb'
    · exact hv a (List.mem_append.2 (Or.inl ha))
    · exact hde.2.2 a ha b hb'

/-! ### Concrete fixtures -/

/-- A concrete knot with default tangents. -/
def mkKnot (px py : Rat) (interp : KnotInterpolation) (idv : Nat) : Knot :=
  ⟨⟨px, py⟩, interp, Tangent.default, Tangent.default, idv⟩

/-- The three-knot slice at x = 0, 0.334, 1 used by the `knot_search.rs`
tests (`0.334 = 334/1000` exactly, since the comparisons involved are exact
in both `f32` and `Rat` for these literals). -/
def exampleKnots : List Knot :=
  [mkKnot 0 0 KnotInterpolation.Linear 1,
   mkKnot (334/1000) (334/1000) KnotInterpolation.Linear 2,
   mkKnot 1 1 KnotInterpolation.Linear 3]

/-- Three Constant knots at x = 0, 0.5, 1 with y = 0, 5, 10 (spec §8). -/
def constantCurve : LookupCurve :=
  ⟨[mkKnot 0 0 KnotInterpolation.Constant 1,
    mkKnot (1/2) 5 KnotInterpolation.Constant 2,
    mkKnot 1 10 KnotInterpolation.Constant 3], 20, 1/100000, none⟩

/-- Two knots sharing x = 0 with different y values. -/
def twoSameX : LookupCurve :=
  ⟨[mkKnot 0 1 KnotInterpolation.Linear 1, mkKnot 0 2 KnotInterpolation.Linear 2],
   20, 1/100000, none⟩

/-- A degenerate cubic segment that sits at the constant point (0, 7). -/
def zeroIterSegment : CubicSegment :=
  ⟨⟨0, 7⟩, ⟨0, 0⟩, ⟨0, 0⟩, ⟨0, 0⟩⟩

/-! ### Claims C2, C3, C4: the knot searches -/

/-- C2: on a sorted slice, for an in-range query the search returns the
index of the knot bracketing `x` from the left: `knots[i].x ≤ x ≤
knots[i+1].x`, the smallest such index (ties at an exact match break toward
the lower index), and — when no knot sits exactly at `x` — the greatest
index with `knots[i].x ≤ x`; on knots at x = 0, 0.334, 1 it returns
`search(0.1) = 0`, `search(0.334) = 0`, `search(0.335) = 1`. -/
theorem C2_search_brackets_left :
    (∀ (l : List Knot) (x : Rat) (k0 klast : Knot),
      sortedByX l → l[0]? = some k0 → l[l.length - 1]? = some klast →
      k0.position.x < x → x < klast.position.x →
      ∃ i, search_knots l x = some i ∧ search_knots_binary l x = some i ∧
        (∃ a, l[i]? = some a ∧ a.position.x ≤ x) ∧
        (∃ b, l[i + 1]? = some b ∧ x ≤ b.position.x) ∧
        (∀ (j : Nat) (a b : Knot), l[j]? = some a → l[j + 1]? = some b →
          a.position.x ≤ x → x ≤ b.position.x → i ≤ j) ∧
        ((∀ (j : Nat) (a : Knot), l[j]? = some a → a.position.x ≠ x) →
          ∀ (j : Nat) (a : Knot), l[j]? = some a → a.position.x ≤ x → j ≤ i)) ∧
    search_knots exampleKnots (1/10) = some 0 ∧
    search_knots exampleKnots (334/1000) = some 0 ∧
    search_knots exampleKnots (335/1000) = some 1 := by
  refine ⟨?_, ?_, ?_, ?_⟩
  · intro l x k0 klast hs h0 hl hx0 hxl
    have h1 : 1 ≤ ppx x l := ppx_pos h0 hx0
    have h2 : ppx x l < l.length := ppx_lt_length hl hxl
    obtain ⟨ka, hga⟩ : ∃ ka, l[ppx x l - 1]? = some ka :=
      ⟨_, List.getElem?_eq_getElem (by omega)⟩
    have hsucc : ppx x l - 1 + 1 = ppx x l := by omega
    obtain ⟨kb, hgb⟩ : ∃ kb, l[ppx x l - 1 + 1]? = some kb := by
      rw [hsucc]
      exact ⟨_, List.getElem?_eq_getElem (by omega)⟩
    refine ⟨ppx x l - 1, search_binary_eq h0 hx0, search_binary_eq h0 hx0,
      ⟨ka, hga, le_of_lt (ppx_lt (by omega) hga)⟩,
      ⟨kb, hgb, ppx_ge hs (by omega) hgb⟩, ?_, ?_⟩
    · intro j a b hja hjb hax hbx
      by_contra hcon
      push_neg at hcon
      have hjlt : j + 1 < ppx x l := by omega
      exact absurd hbx (not_le.2 (ppx_lt hjlt hjb))
    · intro hne j a hja hax
      have hjlt : j < ppx x l := by
        by_contra hcon
        push_neg at hcon
        have := ppx_ge hs hcon hja
        exact hne j a hja (le_antisymm hax this)
      omega
  · norm_num [search_knots, search_knots_binary, partition_point, checked_sub,
      mkKnot, exampleKnots]
  · norm_num [search_knots, search_knots_binary, partition_point, checked_sub,
      mkKnot, exampleKnots]
  · norm_num [search_knots, search_knots_binary, partition_point, checked_sub,
      mkKnot, exampleKnots]

/-- C2 witness: the bracketing characterization applied to the concrete
slice at x = 0, 0.334, 1 with query x = 0.334. -/
theorem C2_search_brackets_left_witness :
    ∃ i, search_knots exampleKnots (334/1000) = some i ∧
      search_knots_binary exampleKnots (334/1000) = some i ∧
      (∃ a, exampleKnots[i]? = some a ∧ a.position.x ≤ 334/1000) ∧
      (∃ b, exampleKnots[i + 1]? = some b ∧ 334/1000 ≤ b.position.x) ∧
      (∀ (j : Nat) (a b : Knot), exampleKnots[j]? = some a →
        exampleKnots[j + 1]? = some b →
        a.position.x ≤ 334/1000 → 334/1000 ≤ b.position.x → i ≤ j) ∧
      ((∀ (j : Nat) (a : Knot), exampleKnots[j]? = some a →
          a.position.x ≠ 334/1000) →
        ∀ (j : Nat) (a : Knot), exampleKnots[j]? = some a →
          a.position.x ≤ 334/1000 → j ≤ i) :=
  C2_search_brackets_left.1 exampleKnots (334/1000)
    (mkKnot 0 0 KnotInterpolation.Linear 1) (mkKnot 1 1 KnotInterpolation.Linear 3)
    (by norm_num [sortedByX, exampleKnots, mkKnot, List.pairwise_cons])
    (by norm_num [exampleKnots]) (by norm_num [exampleKnots])
    (by norm_num [mkKnot]) (by norm_num [mkKnot])

/-- C4: on a sorted slice, for every query in the valid range
`[knots[0].x, knots[last].x)` the four uncached searches agree (at the left
endpoint itself all four panic, modelled as `none`, so they still agree). -/
theorem C4_search_algorithms_agree :
    ∀ (l : List Knot) (x : Rat) (k0 klast : Knot),
      sortedByX l → l[0]? = some k0 → l[l.length - 1]? = some klast →
      k0.position.x ≤ x → x < klast.position.x →
      search_knots_binary l x = search_knots_linear l x ∧
      search_knots_linear l x = search_knots_linear_rev l x ∧
      search_knots_linear_rev l x = search_knots l x := by
  intro l x k0 klast hs h0 hl hx0 hxl
  rcases lt_or_eq_of_le hx0 with h | h
  · have e1 := search_binary_eq h0 h
    have e2 := search_linear_eq h0 hl h hxl
    have e3 := search_linear_rev_eq hs h0 hl h hxl
    exact ⟨by rw [e1, e2], by rw [e2, e3], by rw [e3, search_knots, e1]⟩
  · obtain ⟨b1, b2, b3⟩ := searches_none_of_eq hs h0 h
    exact ⟨by rw [b1, b2], by rw [b2, b3], by rw [b3, search_knots, b1]⟩

/-- C4 witness: algorithm agreement on the concrete slice at
x = 0, 0.334, 1 with query x = 0.5. -/
theorem C4_search_algorithms_agree_witness :
    search_knots_binary exampleKnots (1/2) = search_knots_linear exampleKnots (1/2) ∧
    search_knots_linear exampleKnots (1/2) =
      search_knots_linear_rev exampleKnots (1/2) ∧
    search_knots_linear_rev exampleKnots (1/2) = search_knots exampleKnots (1/2) :=
  C4_search_algorithms_agree exampleKnots (1/2)
    (mkKnot 0 0 KnotInterpolation.Linear 1) (mkKnot 1 1 KnotInterpolation.Linear 3)
    (by norm_num [sortedByX, exampleKnots, mkKnot, List.pairwise_cons])
    (by norm_num [exampleKnots]) (by norm_num [exampleKnots])
    (by norm_num [mkKnot]) (by norm_num [mkKnot])

/-- C3: on a sorted slice, for every query in the valid range and every
starting cache state, the cached search returns the same index as the
uncached search (and both panic together at the left endpoint); moreover,
whenever it returns, the hint has been overwritten with the found index. -/
theorem C3_cached_search_agrees :
    (∀ (l : List Knot) (x : Rat) (k0 klast : Knot) (cc : Option Nat),
      sortedByX l → l[0]? = some k0 → l[l.length - 1]? = some klast →
      k0.position.x ≤ x → x < klast.position.x →
      search_knots_with_cache l x cc =
        (search_knots l x).map (fun i => (i, some i))) ∧
    (∀ (l : List Knot) (x : Rat) (cc : Option Nat) (i : Nat) (c' : Option Nat),
      search_knots_with_cache l x cc = some (i, c') → c' = some i) :=
  ⟨fun l x k0 klast cc hs h0 hl hx0 hxl =>
    search_with_cache_eq hs h0 hl hx0 hxl cc,
   fun l x cc i c' h => search_with_cache_overwrites l x cc h⟩

/-- C3 witness: the cached search with a stale hint agrees with the plain
search on the concrete slice. -/
theorem C3_cached_search_agrees_witness :
    search_knots_with_cache exampleKnots (1/2) (some 9999) =
      (search_knots exampleKnots (1/2)).map (fun i => (i, some i)) :=
  C3_cached_search_agrees.1 exampleKnots (1/2)
    (mkKnot 0 0 KnotInterpolation.Linear 1) (mkKnot 1 1 KnotInterpolation.Linear 3)
    (some 9999)
    (by norm_num [sortedByX, exampleKnots, mkKnot, List.pairwise_cons])
    (by norm_num [exampleKnots]) (by norm_num [exampleKnots])
    (by norm_num [mkKnot]) (by norm_num [mkKnot])

/-! ### Claims C1, C10: degenerate / out-of-range lookups and the cache -/

/-- C1 counterexample: the claim says any `x >= last.x` returns the last
knot's y for every curve; on a two-knot curve whose knots share x = 0, the
query x = 0 satisfies `x >= last.x` yet returns the first knot's y = 1, not
the last knot's y = 2 (the `x <= first.x` branch is checked first). -/
theorem C1_counterexample :
    sortedByX twoSameX.knots ∧
    twoSameX.knots[twoSameX.knots.length - 1]? =
      some (mkKnot 0 2 KnotInterpolation.Linear 2) ∧
    (mkKnot 0 2 KnotInterpolation.Linear 2).position.x ≤ 0 ∧
    twoSameX.lookup 0 = some 1 ∧
    twoSameX.lookup 0 ≠ some ((mkKnot 0 2 KnotInterpolation.Linear 2).position.y) := by
  refine ⟨?_, by norm_num [twoSameX], by norm_num [mkKnot], ?_, ?_⟩
  · norm_num [sortedByX, twoSameX, mkKnot, List.pairwise_cons]
  · norm_num [LookupCurve.lookup, LookupCurve.lookup_internal, twoSameX, mkKnot]
  · norm_num [LookupCurve.lookup, LookupCurve.lookup_internal, twoSameX, mkKnot]

/-- C1 (amended): `lookup` and `lookup_cached` handle degenerate and
out-of-range inputs by flat extrapolation — empty curve: 0; single knot or
`x <= first.x`: the first knot's y; `x >= last.x` *with `x > first.x`*: the
last knot's y (when both extrapolation conditions hold at once the left
branch wins, as the counterexample shows). -/
theorem C1_flat_extrapolation :
    (∀ (cu : LookupCurve) (x : Rat) (cc : Option Nat), cu.knots = [] →
      cu.lookup x = some 0 ∧ cu.lookup_cached x cc = some (0, cc)) ∧
    (∀ (cu : LookupCurve) (x : Rat) (cc : Option Nat) (k0 : Knot),
      cu.knots[0]? = some k0 → (cu.knots.length = 1 ∨ x ≤ k0.position.x) →
      cu.lookup x = some k0.position.y ∧
      cu.lookup_cached x cc = some (k0.position.y, cc)) ∧
    (∀ (cu : LookupCurve) (x : Rat) (cc : Option Nat) (k0 klast : Knot),
      cu.knots[0]? = some k0 → cu.knots[cu.knots.length - 1]? = some klast →
      ¬ x ≤ k0.position.x → klast.position.x ≤ x →
      cu.lookup x = some klast.position.y ∧
      cu.lookup_cached x cc = some (klast.position.y, cc)) := by
  refine ⟨?_, ?_, ?_⟩
  · intro cu x cc h
    constructor
    · rw [LookupCurve.lookup, lookup_internal_empty cu x none h]
      rfl
    · rw [LookupCurve.lookup_cached, lookup_internal_empty cu x (some cc) h]
  · intro cu x cc k0 h0 h
    constructor
    · rw [LookupCurve.lookup, lookup_internal_first cu x none h0 h]
      rfl
    · rw [LookupCurve.lookup_cached, lookup_internal_first cu x (some cc) h0 h]
  · intro cu x cc k0 klast h0 hlast hx0 hxl
    constructor
    · rw [LookupCurve.lookup, lookup_internal_last cu x none h0 hlast hx0 hxl]
      rfl
    · rw [LookupCurve.lookup_cached,
        lookup_internal_last cu x (some cc) h0 hlast hx0 hxl]

/-- C1 witness: flat extrapolation at the right end of the Constant curve,
queried at x = 7 with a cache hint of 0. -/
theorem C1_flat_extrapolation_witness :
    constantCurve.lookup 7 = some (mkKnot 1 10 KnotInterpolation.Constant 3).position.y ∧
    constantCurve.lookup_cached 7 (some 0) =
      some ((mkKnot 1 10 KnotInterpolation.Constant 3).position.y, some 0) :=
  C1_flat_extrapolation.2.2 constantCurve 7 (some 0)
    (mkKnot 0 0 KnotInterpolation.Constant 1) (mkKnot 1 10 KnotInterpolation.Constant 3)
    (by norm_num [constantCurve]) (by norm_num [constantCurve])
    (by norm_num [mkKnot]) (by norm_num [mkKnot])

/-- C10: every early-return branch of `lookup_cached` (empty curve, single
knot, `x <= first.x`, `x >= last.x`) returns with the caller's cache
contents unchanged; when none of those branches fires and the call returns,
the cache has been overwritten with the index found by the bracketing
search. -/
theorem C10_cache_frame_effect :
    (∀ (cu : LookupCurve) (x : Rat) (cc : Option Nat), cu.knots = [] →
      cu.lookup_cached x cc = some (0, cc)) ∧
    (∀ (cu : LookupCurve) (x : Rat) (cc : Option Nat) (k0 : Knot),
      cu.knots[0]? = some k0 → (cu.knots.length = 1 ∨ x ≤ k0.position.x) →
      cu.lookup_cached x cc = some (k0.position.y, cc)) ∧
    (∀ (cu : LookupCurve) (x : Rat) (cc : Option Nat) (k0 klast : Knot),
      cu.knots[0]? = some k0 → cu.knots[cu.knots.length - 1]? = some klast →
      ¬ x ≤ k0.position.x → klast.position.x ≤ x →
      cu.lookup_cached x cc = some (klast.position.y, cc)) ∧
    (∀ (cu : LookupCurve) (x : Rat) (cc : Option Nat) (r : Rat)
      (cc' : Option Nat) (k0 klast : Knot),
      cu.knots[0]? = some k0 → cu.knots[cu.knots.length - 1]? = some klast →
      cu.knots.length ≠ 1 → ¬ x ≤ k0.position.x → ¬ klast.position.x ≤ x →
      cu.lookup_cached x cc = some (r, cc') →
      ∃ i, search_knots_with_cache cu.knots x cc = some (i, some i) ∧
        cc' = some i) := by
  refine ⟨?_, ?_, ?_, ?_⟩
  · intro cu x cc h
    rw [LookupCurve.lookup_cached, lookup_internal_empty cu x (some cc) h]
  · intro cu x cc k0 h0 h
    rw [LookupCurve.lookup_cached, lookup_internal_first cu x (some cc) h0 h]
  · intro cu x cc k0 klast h0 hlast hx0 hxl
    rw [LookupCurve.lookup_cached,
      lookup_internal_last cu x (some cc) h0 hlast hx0 hxl]
  · intro cu x cc r cc' k0 klast h0 hlast h1 hx0 hxl hlc
    rw [LookupCurve.lookup_cached,
      lookup_internal_main cu x (some cc) h0 hlast h1 hx0 hxl] at hlc
    have hss : cu.searchStep x (some cc) =
        (search_knots_with_cache cu.knots x cc).map (fun p => (p.1, some p.2)) :=
      rfl
    rw [hss] at hlc
    rcases hsw : search_knots_with_cache cu.knots x cc with _ | p
    · rw [hsw] at hlc
      exact absurd hlc (by simp)
    · obtain ⟨i, ci⟩ := p
      have hci : ci = some i := search_with_cache_overwrites _ _ _ hsw
      subst hci
      rw [hsw] at hlc
      simp only [Option.map_some'] at hlc
      rcases hy : cu.interp_at x i with _ | y
      · rw [hy] at hlc
        exact absurd hlc (by simp)
      · rw [hy] at hlc
        simp only [Option.some_inj, Prod.mk.injEq] at hlc
        exact ⟨i, hsw ▸ rfl, hlc.2.symm⟩

/-- C10 witness: a stale cache hint (9999) on the Constant curve is
overwritten with the freshly found index when the search path runs. -/
theorem C10_cache_frame_effect_witness :
    ∃ i, search_knots_with_cache constantCurve.knots (1/2) (some 9999) =
      some (i, some i) ∧ (some 0 : Option Nat) = some i :=
  C10_cache_frame_effect.2.2.2 constantCurve (1/2) (some 9999) 0 (some 0)
    (mkKnot 0 0 KnotInterpolation.Constant 1) (mkKnot 1 10 KnotInterpolation.Constant 3)
    (by norm_num [constantCurve]) (by norm_num [constantCurve])
    (by norm_num [constantCurve]) (by norm_num [mkKnot]) (by norm_num [mkKnot])
    (by norm_num [LookupCurve.lookup_cached, LookupCurve.lookup_internal,
      LookupCurve.searchStep, LookupCurve.interp_at, search_knots_with_cache,
      cache_found, search_knots, search_knots_binary, partition_point,
      checked_sub, constantCurve, mkKnot])

/-! ### Claims C5, C8: segment interpolation dispatch -/

/-- C5 counterexample: on the Constant curve at x = 0, 0.5, 1 with
y = 0, 5, 10 the claim says `lookup(0.5) == 5`; the code ties the knot
search toward the lower index at an exact match, so the *left* segment's
constant value 0 is returned. -/
theorem C5_counterexample :
    constantCurve.lookup (1/2) = some 0 ∧ (0 : Rat) ≠ 5 := by
  constructor
  · norm_num [LookupCurve.lookup, LookupCurve.lookup_internal,
      LookupCurve.searchStep, LookupCurve.interp_at, search_knots,
      search_knots_binary, partition_point, checked_sub, constantCurve, mkKnot]
  · norm_num

/-- C5 (amended): on the Constant curve at x = 0, 0.5, 1 with y = 0, 5, 10,
`lookup(0.3) = 0`, `lookup(0.5) = 0` (not 5 — the exact match ties toward
the lower segment), `lookup(0.99) = 5`, `lookup(1.0) = 10`; in general a
Constant segment holds knot a's y on the half-open-from-the-right span up
to and including the next knot's x. -/
theorem C5_constant_interpolation :
    constantCurve.lookup (3/10) = some 0 ∧
    constantCurve.lookup (1/2) = some 0 ∧
    constantCurve.lookup (99/100) = some 5 ∧
    constantCurve.lookup 1 = some 10 ∧
    (∀ (cu : LookupCurve) (x : Rat) (k0 klast knot_a : Knot) (i : Nat),
      cu.knots[0]? = some k0 → cu.knots[cu.knots.length - 1]? = some klast →
      cu.knots.length ≠ 1 → ¬ x ≤ k0.position.x → ¬ klast.position.x ≤ x →
      search_knots cu.knots x = some i → cu.knots[i]? = some knot_a →
      knot_a.interpolation = KnotInterpolation.Constant →
      cu.lookup x = some knot_a.position.y) := by
  refine ⟨?_, ?_, ?_, ?_, ?_⟩
  · norm_num [LookupCurve.lookup, LookupCurve.lookup_internal,
      LookupCurve.searchStep, LookupCurve.interp_at, search_knots,
      search_knots_binary, partition_point, checked_sub, constantCurve, mkKnot]
  · norm_num [LookupCurve.lookup, LookupCurve.lookup_internal,
      LookupCurve.searchStep, LookupCurve.interp_at, search_knots,
      search_knots_binary, partition_point, checked_sub, constantCurve, mkKnot]
  · norm_num [LookupCurve.lookup, LookupCurve.lookup_internal,
      LookupCurve.searchStep, LookupCurve.interp_at, search_knots,
      search_knots_binary, partition_point, checked_sub, constantCurve, mkKnot]
  · norm_num [LookupCurve.lookup, LookupCurve.lookup_internal,
      LookupCurve.searchStep, LookupCurve.interp_at, search_knots,
      search_knots_binary, partition_point, checked_sub, constantCurve, mkKnot]
  · intro cu x k0 klast knot_a i h0 hlast h1 hx0 hxl hsearch hka hconst
    rw [LookupCurve.lookup, lookup_internal_main cu x none h0 hlast h1 hx0 hxl]
    have hss : cu.searchStep x none =
        (search_knots cu.knots x).map (fun i => (i, none)) := rfl
    rw [hss, hsearch]
    simp only [Option.map_some']
    have hia : cu.interp_at x i = some knot_a.position.y := by
      simp only [LookupCurve.interp_at, hka, hconst]
    rw [hia]
    rfl

/-- C5 witness: the general Constant-segment clause applied to the
Constant curve at x = 0.99 (bracketing knot index 1, y = 5). -/
theorem C5_constant_interpolation_witness :
    constantCurve.lookup (99/100) =
      some (mkKnot (1/2) 5 KnotInterpolation.Constant 2).position.y :=
  C5_constant_interpolation.2.2.2.2 constantCurve (99/100)
    (mkKnot 0 0 KnotInterpolation.Constant 1) (mkKnot 1 10 KnotInterpolation.Constant 3)
    (mkKnot (1/2) 5 KnotInterpolation.Constant 2) 1
    (by norm_num [constantCurve]) (by norm_num [constantCurve])
    (by norm_num [constantCurve]) (by norm_num [mkKnot]) (by norm_num [mkKnot])
    (by norm_num [search_knots, search_knots_binary, partition_point,
      checked_sub, constantCurve, mkKnot])
    (by norm_num [constantCurve]) rfl

/-- A two-knot Cubic curve whose left knot's right tangent carries
`weight = Some (1/3)` — numerically the unweighted default, but present. -/
def cubicWeightedCurve : LookupCurve :=
  ⟨[⟨⟨0, 0⟩, KnotInterpolation.Cubic, Tangent.default,
     ⟨0, TangentMode.Aligned, some (1/3)⟩, 1⟩,
    mkKnot 1 1 KnotInterpolation.Linear 2], 20, 1/100000, none⟩

/-- C8: in the bracketed Cubic case, lookup dispatches to the iterative
weighted (Bezier + Newton) path exactly when either adjacent tangent weight
is `Some` (the branch tests presence, not the numeric value), and to the
closed-form unweighted Hermite evaluation when both are `None`. -/
theorem C8_cubic_dispatch :
    ∀ (cu : LookupCurve) (x : Rat) (k0 klast knot_a knot_b : Knot) (i : Nat),
      cu.knots[0]? = some k0 → cu.knots[cu.knots.length - 1]? = some klast →
      cu.knots.length ≠ 1 → ¬ x ≤ k0.position.x → ¬ klast.position.x ≤ x →
      search_knots cu.knots x = some i → cu.knots[i]? = some knot_a →
      cu.knots[i + 1]? = some knot_b →
      knot_a.interpolation = KnotInterpolation.Cubic →
      cu.lookup x = some (
        if (knot_a.right_tangent.weight.isSome ||
            knot_b.left_tangent.weight.isSome) = true then
          weighted_cubic_interp knot_a knot_b x cu.max_error cu.max_iters
        else unweighted_cubic_interp knot_a knot_b x) := by
  intro cu x k0 klast knot_a knot_b i h0 hlast h1 hx0 hxl hsearch hka hkb hcubic
  rw [LookupCurve.lookup, lookup_internal_main cu x none h0 hlast h1 hx0 hxl]
  have hss : cu.searchStep x none =
      (search_knots cu.knots x).map (fun i => (i, none)) := rfl
  rw [hss, hsearch]
  simp only [Option.map_some']
  have hia : cu.interp_at x i = some (
      if (knot_a.right_tangent.weight.isSome ||
          knot_b.left_tangent.weight.isSome) = true then
        weighted_cubic_interp knot_a knot_b x cu.max_error cu.max_iters
      else unweighted_cubic_interp knot_a knot_b x) := by
    simp only [LookupCurve.interp_at, hka, hkb, hcubic]
    split
    · rfl
    · rfl
  rw [hia]
  rfl

/-- C8 witness: with `weight = Some (1/3)` on the left knot's right tangent
(numerically equal to the unweighted default) the weighted path is still
taken — the branch is on presence of `Some`. -/
theorem C8_cubic_dispatch_witness :
    cubicWeightedCurve.lookup (1/2) = some (
      if ((⟨⟨0, 0⟩, KnotInterpolation.Cubic, Tangent.default,
            ⟨0, TangentMode.Aligned, some (1/3)⟩, 1⟩ : Knot).right_tangent.weight.isSome ||
          (mkKnot 1 1 KnotInterpolation.Linear 2).left_tangent.weight.isSome) = true then
        weighted_cubic_interp
          ⟨⟨0, 0⟩, KnotInterpolation.Cubic, Tangent.default,
            ⟨0, TangentMode.Aligned, some (1/3)⟩, 1⟩
          (mkKnot 1 1 KnotInterpolation.Linear 2) (1/2)
          cubicWeightedCurve.max_error cubicWeightedCurve.max_iters
      else unweighted_cubic_interp
        ⟨⟨0, 0⟩, KnotInterpolation.Cubic, Tangent.default,
          ⟨0, TangentMode.Aligned, some (1/3)⟩, 1⟩
        (mkKnot 1 1 KnotInterpolation.Linear 2) (1/2)) :=
  C8_cubic_dispatch cubicWeightedCurve (1/2)
    (⟨⟨0, 0⟩, KnotInterpolation.Cubic, Tangent.default,
      ⟨0, TangentMode.Aligned, some (1/3)⟩, 1⟩)
    (mkKnot 1 1 KnotInterpolation.Linear 2)
    (⟨⟨0, 0⟩, KnotInterpolation.Cubic, Tangent.default,
      ⟨0, TangentMode.Aligned, some (1/3)⟩, 1⟩)
    (mkKnot 1 1 KnotInterpolation.Linear 2) 0
    (by norm_num [cubicWeightedCurve]) (by norm_num [cubicWeightedCurve])
    (by norm_num [cubicWeightedCurve]) (by norm_num) (by norm_num [mkKnot])
    (by norm_num [search_knots, search_knots_binary, partition_point,
      checked_sub, cubicWeightedCurve, mkKnot])
    (by norm_num [cubicWeightedCurve]) (by norm_num [cubicWeightedCurve, mkKnot])
    rfl

/-! ### Claim C6: the Newton solver's return value -/

lemma newton_loop_last (s : CubicSegment) (x e : Rat) :
    ∀ (n : Nat) (t : Rat) (pos : Vec2),
      ∃ u, newton_loop s x e (n + 1) t pos = s.position u
  | 0, t, pos => by
    refine ⟨t, ?_⟩
    simp only [newton_loop]
    split
    · rfl
    · rfl
  | Nat.succ n, t, pos => by
    simp only [newton_loop]
    split
    · exact ⟨t, rfl⟩
    · exact newton_loop_last s x e n
        (t - ((s.position t).x - x) / (s.velocity t).x) (s.position t)

/-- C6 counterexample: the claim says that with `max_iters = 0` the solver
returns the y of the initial guess (`t = x`, so `position(x).y`); in the
code the loop body never runs and `pos_guess` keeps its `Vec2::ZERO`
initialization, so 0.0 is returned — here `position(0).y = 7` yet the
solver returns 0. -/
theorem C6_counterexample :
    zeroIterSegment.find_y_given_x 0 (1/100000) 0 = 0 ∧
    (zeroIterSegment.position 0).y = 7 ∧ (0 : Rat) ≠ 7 := by
  refine ⟨rfl, ?_, by norm_num⟩
  norm_num [CubicSegment.position, zeroIterSegment]

/-- C6 (amended): whenever at least one iteration runs, `find_y_given_x`
returns the y-component of the last evaluated position regardless of
convergence; with `max_iters = 0` it performs no iteration and returns 0.0
(the y of the zero-initialized `pos_guess`), not the initial guess's y. -/
theorem C6_returns_last_evaluated :
    (∀ (s : CubicSegment) (x max_error : Rat) (n : Nat), 1 ≤ n →
      ∃ t, s.find_y_given_x x max_error n = (s.position t).y) ∧
    (∀ (s : CubicSegment) (x max_error : Rat),
      s.find_y_given_x x max_error 0 = 0) := by
  constructor
  · intro s x e n hn
    obtain ⟨m, rfl⟩ : ∃ m, n = m + 1 := ⟨n - 1, by omega⟩
    obtain ⟨u, hu⟩ := newton_loop_last s x e m x ⟨0, 0⟩
    exact ⟨u, by rw [CubicSegment.find_y_given_x, hu]⟩
  · intro s x e
    rfl

/-- C6 witness: one Newton iteration on the degenerate constant segment
returns the y of an evaluated position (7), unlike the zero-iteration case. -/
theorem C6_returns_last_evaluated_witness :
    ∃ t, zeroIterSegment.find_y_given_x 0 (1/100000) 1 =
      (zeroIterSegment.position t).y :=
  C6_returns_last_evaluated.1 zeroIterSegment 0 (1/100000) 1 (by norm_num)

/-! ### Claim C7: the sortedness invariant -/

lemma new_sorted (ks : List Knot) : sortedByX (LookupCurve.new ks).knots := by
  show sortedByX (ks.mergeSort (fun a b => decide (a.position.x ≤ b.position.x)))
  have h := @List.sorted_mergeSort Knot
    (fun a b : Knot => decide (a.position.x ≤ b.position.x))
    (fun a b c hab hbc =>
      decide_eq_true (le_trans (of_decide_eq_true hab) (of_decide_eq_true hbc)))
    (fun a b => by
      rcases le_total a.position.x b.position.x with h | h
      · simp [decide_eq_true h]
      · simp [decide_eq_true h])
    ks
  exact List.Pairwise.imp (fun hab => of_decide_eq_true hab) h

lemma add_knot_sorted (cu : LookupCurve) (k : Knot) (hs : sortedByX cu.knots) :
    sortedByX (cu.add_knot k).1.knots := by
  rw [LookupCurve.add_knot]
  by_cases hcond : (cu.knots.isEmpty ||
      (match cu.knots.getLast? with
       | some last => decide (last.position.x < k.position.x)
       | none => false)) = true
  · rw [if_pos hcond]
    show sortedByX (cu.knots ++ [k])
    rw [Bool.or_eq_true] at hcond
    rcases hcond with hemp | hlastc
    · have hnil : cu.knots = [] := List.isEmpty_iff.1 hemp
      rw [hnil]
      exact List.pairwise_cons.2 ⟨by simp, List.Pairwise.nil⟩
    · cases hgl : cu.knots.getLast? with
      | none => rw [hgl] at hlastc; simp at hlastc
      | some last =>
        rw [hgl] at hlastc
        have hlt : last.position.x < k.position.x := of_decide_eq_true hlastc
        unfold sortedByX
        rw [List.pairwise_append]
        refine ⟨hs, by simp, ?_⟩
        intro a ha b hb
        simp only [List.mem_singleton] at hb
        subst hb
        exact le_of_lt (lt_of_le_of_lt (sorted_le_getLast hs hgl a ha) hlt)
  · rw [if_neg hcond]
    show sortedByX (cu.knots.insertIdx
      (partition_point (fun kk => decide (kk.position.x < k.position.x)) cu.knots) k)
    rw [ppx_def]
    exact sortedByX_insertIdx k cu.knots (ppx k.position.x cu.knots) hs
      (take_ppx_le (le_refl _)) (drop_ppx_ge hs (le_refl _))

lemma modify_knot_sorted (cu : LookupCurve) (i : Nat) (v : Knot)
    (cu' : LookupCurve) (j : Nat) (hs : sortedByX cu.knots)
    (h : cu.modify_knot i v = some (cu', j)) : sortedByX cu'.knots := by
  rcases hki : cu.knots[i]? with _ | old
  · rw [LookupCurve.modify_knot, hki] at h
    exact absurd h (by simp)
  · have hilen : i < cu.knots.length := (List.getElem?_eq_some.1 hki).1
    rw [LookupCurve.modify_knot] at h
    simp only [hki] at h
    rw [ppx_def] at h
    by_cases hx : old.position.x = v.position.x
    · rw [if_pos hx] at h
      simp only [Option.some_inj, Prod.mk.injEq] at h
      obtain ⟨hcu, hj⟩ := h
      rw [← hcu]
      show sortedByX (cu.knots.set i v)
      apply sortedByX_set v hilen hs
      · intro a ha
        exact hx ▸ sorted_take_le hs hki a ha
      · intro b hb
        rcases mem_drop_idx hb with ⟨jj, hjj, hjb⟩
        exact hx ▸ sortedByX_mono hs (by omega) hki hjb
    · rw [if_neg hx] at h
      by_cases hni : ppx v.position.x cu.knots = i
      · rw [if_pos hni] at h
        simp only [Option.some_inj, Prod.mk.injEq] at h
        obtain ⟨hcu, hj⟩ := h
        rw [← hcu]
        show sortedByX (cu.knots.set i v)
        apply sortedByX_set v hilen hs
        · exact take_ppx_le (le_of_eq hni.symm)
        · intro b hb
          rcases mem_drop_idx hb with ⟨jj, hjj, hjb⟩
          exact ppx_ge hs (by omega) hjb
      · rw [if_neg hni] at h
        simp only [Option.some_inj, Prod.mk.injEq] at h
        obtain ⟨hcu, hj⟩ := h
        rw [← hcu]
        have hsE : sortedByX (cu.knots.eraseIdx i) :=
          List.Pairwise.sublist (List.eraseIdx_sublist cu.knots i) hs
        by_cases hii : i < ppx v.position.x cu.knots
        · show sortedByX ((cu.knots.eraseIdx i).insertIdx
            (if i < ppx v.position.x cu.knots
             then ppx v.position.x cu.knots - 1
             else ppx v.position.x cu.knots) v)
          rw [if_pos hii]
          apply sortedByX_insertIdx v _ _ hsE
          · intro a ha
            rcases mem_take_idx ha with ⟨jj, hjj, hEj⟩
            rw [List.getElem?_eraseIdx] at hEj
            by_cases hji : jj < i
            · rw [if_pos hji] at hEj
              exact le_of_lt (ppx_lt (by omega) hEj)
            · rw [if_neg hji] at hEj
              exact le_of_lt (ppx_lt (by omega) hEj)
          · intro b hb
            rcases mem_drop_idx hb with ⟨jj, hjj, hEj⟩
            rw [List.getElem?_eraseIdx] at hEj
            by_cases hji : jj < i
            · omega
            · rw [if_neg hji] at hEj
              exact ppx_ge hs (by omega) hEj
        · show sortedByX ((cu.knots.eraseIdx i).insertIdx
            (if i < ppx v.position.x cu.knots
             then ppx v.position.x cu.knots - 1
             else ppx v.position.x cu.knots) v)
          rw [if_neg hii]
          have hpi : ppx v.position.x cu.knots < i := by omega
          apply sortedByX_insertIdx v _ _ hsE
          · intro a ha
            rcases mem_take_idx ha with ⟨jj, hjj, hEj⟩
            rw [List.getElem?_eraseIdx] at hEj
            by_cases hji : jj < i
            · rw [if_pos hji] at hEj
              exact le_of_lt (ppx_lt (by omega) hEj)
            · omega
          · intro b hb
            rcases mem_drop_idx hb with ⟨jj, hjj, hEj⟩
            rw [List.getElem?_eraseIdx] at hEj
            by_cases hji : jj < i
            · rw [if_pos hji] at hEj
              exact ppx_ge hs (by omega) hEj
            · rw [if_neg hji] at hEj
              exact ppx_ge hs (by omega) hEj

lemma delete_knot_sorted (cu : LookupCurve) (i : Nat) (cu' : LookupCurve)
    (hs : sortedByX cu.knots) (h : cu.delete_knot i = some cu') :
    sortedByX cu'.knots := by
  rw [LookupCurve.delete_knot] at h
  by_cases hi : i < cu.knots.length
  · rw [if_pos hi] at h
    simp only [Option.some_inj] at h
    rw [← h]
    exact List.Pairwise.sublist (List.eraseIdx_sublist cu.knots i) hs
  · rw [if_neg hi] at h
    exact absurd h (by simp)

/-- C7: the knot sequence is always sorted ascending by `position.x`:
`new` sorts its input and `add_knot`, `modify_knot`, `delete_knot` preserve
sortedness. -/
theorem C7_sorted_invariant :
    (∀ ks : List Knot, sortedByX (LookupCurve.new ks).knots) ∧
    (∀ (cu : LookupCurve) (k : Knot), sortedByX cu.knots →
      sortedByX (cu.add_knot k).1.knots) ∧
    (∀ (cu : LookupCurve) (i : Nat) (v : Knot) (cu' : LookupCurve) (j : Nat),
      sortedByX cu.knots → cu.modify_knot i v = some (cu', j) →
      sortedByX cu'.knots) ∧
    (∀ (cu : LookupCurve) (i : Nat) (cu' : LookupCurve), sortedByX cu.knots →
      cu.delete_knot i = some cu' → sortedByX cu'.knots) :=
  ⟨new_sorted,
   add_knot_sorted,
   fun cu i v cu' j hs h => modify_knot_sorted cu i v cu' j hs h,
   fun cu i cu' hs h => delete_knot_sorted cu i cu' hs h⟩

/-- C7 witness: adding a knot at x = 1/4 to the sorted Constant curve
keeps the knot list sorted. -/
theorem C7_sorted_invariant_witness :
    sortedByX (constantCurve.add_knot (mkKnot (1/4) 3 KnotInterpolation.Linear 9)).1.knots :=
  C7_sorted_invariant.2.1 constantCurve (mkKnot (1/4) 3 KnotInterpolation.Linear 9)
    (by norm_num [sortedByX, constantCurve, mkKnot, List.pairwise_cons])

/-! ### Claim C9: distinct knot ids -/

/-- Curves reachable through the public mutation API with arbitrary
caller-supplied knots (`Knot` has public fields, so any id can be passed). -/
inductive Reachable : LookupCurve → Prop where
  | new (ks : List Knot) : Reachable (LookupCurve.new ks)
  | add (cu : LookupCurve) (k : Knot) (hr : Reachable cu) :
      Reachable (cu.add_knot k).1
  | modify (cu : LookupCurve) (i : Nat) (v : Knot) (cu' : LookupCurve) (j : Nat)
      (hr : Reachable cu) (heq : cu.modify_knot i v = some (cu', j)) :
      Reachable cu'
  | delete (cu : LookupCurve) (i : Nat) (cu' : LookupCurve) (hr : Reachable cu)
      (heq : cu.delete_knot i = some cu') : Reachable cu'

/-- Curves reachable through the public API when every knot fed to the
curve carries a fresh id, as `unique_knot_id` produces: `new` receives
pairwise-distinct ids, `add_knot` an id not already in the curve, and
`modify_knot` a value whose id collides with no *other* knot. -/
inductive ReachableFresh : LookupCurve → Prop where
  | new (ks : List Knot) (hids : DistinctIds ks) :
      ReachableFresh (LookupCurve.new ks)
  | add (cu : LookupCurve) (k : Knot) (hr : ReachableFresh cu)
      (hfresh : ∀ a ∈ cu.knots, a.id ≠ k.id) :
      ReachableFresh (cu.add_knot k).1
  | modify (cu : LookupCurve) (i : Nat) (v : Knot) (cu' : LookupCurve) (j : Nat)
      (hr : ReachableFresh cu)
      (hfresh : ∀ a ∈ cu.knots.eraseIdx i, a.id ≠ v.id)
      (heq : cu.modify_knot i v = some (cu', j)) : ReachableFresh cu'
  | delete (cu : LookupCurve) (i : Nat) (cu' : LookupCurve)
      (hr : ReachableFresh cu) (heq : cu.delete_knot i = some cu') :
      ReachableFresh cu'

/-- The knot used twice in the C9 counterexample. -/
def dupKnot : Knot := mkKnot 0 0 KnotInterpolation.Linear 1

/-- The curve holding the same knot (same id) twice. -/
def dupCurve : LookupCurve := ⟨[dupKnot, dupKnot], 20, 1 / 100000, none⟩

/-- C9 counterexample: `add_knot` inserts whatever knot it is handed, so
adding a copy of a knot already in the curve (legal — `Knot` is `Copy` with
public fields) yields a curve, reachable through the public API, holding
two knots with equal id. -/
theorem C9_counterexample : Reachable dupCurve ∧ ¬ DistinctIds dupCurve.knots := by
  constructor
  · have step1 : ((LookupCurve.new []).add_knot dupKnot).1 =
        (⟨[dupKnot], 20, 1 / 100000, none⟩ : LookupCurve) := by
      norm_num [LookupCurve.new, LookupCurve.default, LookupCurve.add_knot,
        List.mergeSort]
    have step2 : ((⟨[dupKnot], 20, 1 / 100000, none⟩ : LookupCurve).add_knot
        dupKnot).1 = dupCurve := by
      norm_num [LookupCurve.add_knot, dupKnot, dupCurve, mkKnot,
        partition_point]
    have r2 := Reachable.add _ dupKnot (Reachable.new [])
    rw [step1] at r2
    have r3 := Reachable.add _ dupKnot r2
    rw [step2] at r3
    exact r3
  · intro h
    rcases List.pairwise_cons.1 h with ⟨hh, _⟩
    exact hh dupKnot (List.mem_cons_self _ _) rfl

lemma new_distinct (ks : List Knot) (h : DistinctIds ks) :
    DistinctIds (LookupCurve.new ks).knots := by
  show DistinctIds (ks.mergeSort (fun a b => decide (a.position.x ≤ b.position.x)))
  unfold DistinctIds at *
  rw [List.Perm.pairwise_iff (fun hne => Ne.symm hne)
    (List.mergeSort_perm ks (fun a b => decide (a.position.x ≤ b.position.x)))]
  exact h

lemma add_knot_distinct (cu : LookupCurve) (k : Knot) (hd : DistinctIds cu.knots)
    (hfresh : ∀ a ∈ cu.knots, a.id ≠ k.id) :
    DistinctIds (cu.add_knot k).1.knots := by
  rw [LookupCurve.add_knot]
  by_cases hcond : (cu.knots.isEmpty ||
      (match cu.knots.getLast? with
       | some last => decide (last.position.x < k.position.x)
       | none => false)) = true
  · rw [if_pos hcond]
    show DistinctIds (cu.knots ++ [k])
    unfold DistinctIds
    rw [List.pairwise_append]
    refine ⟨hd, by simp, ?_⟩
    intro a ha b hb
    simp only [List.mem_singleton] at hb
    subst hb
    exact hfresh a ha
  · rw [if_neg hcond]
    show DistinctIds (cu.knots.insertIdx
      (partition_point (fun kk => decide (kk.position.x < k.position.x)) cu.knots) k)
    rw [ppx_def]
    exact distinctIds_insertIdx (ppx_le_length _ _) hd hfresh

lemma modify_knot_distinct (cu : LookupCurve) (i : Nat) (v : Knot)
    (cu' : LookupCurve) (j : Nat) (hd : DistinctIds cu.knots)
    (hfresh : ∀ a ∈ cu.knots.eraseIdx i, a.id ≠ v.id)
    (h : cu.modify_knot i v = some (cu', j)) : DistinctIds cu'.knots := by
  rcases hki : cu.knots[i]? with _ | old
  · rw [LookupCurve.modify_knot, hki] at h
    exact absurd h (by simp)
  · have hilen : i < cu.knots.length := (List.getElem?_eq_some.1 hki).1
    have hElen : (cu.knots.eraseIdx i).length = cu.knots.length - 1 := by
      rw [List.length_eraseIdx]
      simp [hilen]
    have hdE : DistinctIds (cu.knots.eraseIdx i) :=
      List.Pairwise.sublist (List.eraseIdx_sublist cu.knots i) hd
    rw [LookupCurve.modify_knot] at h
    simp only [hki] at h
    rw [ppx_def] at h
    by_cases hx : old.position.x = v.position.x
    · rw [if_pos hx] at h
      simp only [Option.some_inj, Prod.mk.injEq] at h
      obtain ⟨hcu, hj⟩ := h
      rw [← hcu]
      exact distinctIds_set hilen hd hfresh
    · rw [if_neg hx] at h
      by_cases hni : ppx v.position.x cu.knots = i
      · rw [if_pos hni] at h
        simp only [Option.some_inj, Prod.mk.injEq] at h
        obtain ⟨hcu, hj⟩ := h
        rw [← hcu]
        exact distinctIds_set hilen hd hfresh
      · rw [if_neg hni] at h
        simp only [Option.some_inj, Prod.mk.injEq] at h
        obtain ⟨hcu, hj⟩ := h
        rw [← hcu]
        have hppl : ppx v.position.x cu.knots ≤ cu.knots.length :=
          ppx_le_length _ _
        show DistinctIds ((cu.knots.eraseIdx i).insertIdx
          (if i < ppx v.position.x cu.knots
           then ppx v.position.x cu.knots - 1
           else ppx v.position.x cu.knots) v)
        apply distinctIds_insertIdx _ hdE hfresh
        by_cases hii : i < ppx v.position.x cu.knots
        · rw [if_pos hii]
          omega
        · rw [if_neg hii]
          omega

lemma delete_knot_distinct (cu : LookupCurve) (i : Nat) (cu' : LookupCurve)
    (hd : DistinctIds cu.knots) (h : cu.delete_knot i = some cu') :
    DistinctIds cu'.knots := by
  rw [LookupCurve.delete_knot] at h
  by_cases hi : i < cu.knots.length
  · rw [if_pos hi] at h
    simp only [Option.some_inj] at h
    rw [← h]
    exact List.Pairwise.sublist (List.eraseIdx_sublist cu.knots i) hd
  · rw [if_neg hi] at h
    exact absurd h (by simp)

/-- C9 (amended): when every knot entering the curve carries a fresh id —
as the ids produced by the global `unique_knot_id` counter always are — no
two knots in any curve reachable through `new` / `add_knot` /
`modify_knot` / `delete_knot` share an id. Without that freshness
assumption the claim fails (see the counterexample: `add_knot` happily
inserts a second knot with an id already present). -/
theorem C9_distinct_ids : ∀ cu : LookupCurve, ReachableFresh cu →
    DistinctIds cu.knots := by
  intro cu hr
  induction hr with
  | new ks hids => exact new_distinct ks hids
  | add cu k hr hfresh ih => exact add_knot_distinct cu k ih hfresh
  | modify cu i v cu' j hr hfresh heq ih =>
    exact modify_knot_distinct cu i v cu' j ih hfresh heq
  | delete cu i cu' hr heq ih => exact delete_knot_distinct cu i cu' ih heq

/-- C9 witness: a curve built from two fresh-id knots has distinct ids. -/
theorem C9_distinct_ids_witness :
    DistinctIds (LookupCurve.new
      [mkKnot 1 1 KnotInterpolation.Linear 4, mkKnot 0 0 KnotInterpolation.Linear 5]).knots :=
  C9_distinct_ids _ (ReachableFresh.new _ (by
    refine List.pairwise_cons.2 ⟨?_, ?_⟩
    · intro b hb
      simp only [List.mem_singleton] at hb
      subst hb
      norm_num [mkKnot]
    · exact List.pairwise_cons.2 ⟨by simp, List.Pairwise.nil⟩))
